import Mathlib

/-!
Verification development for the cleanlab repository.

Shallow embedding of:
* `cleanlab/datalab/internal/issue_manager_factory.py` — the issue-manager
  registry, the `register` decorator, `_IssueManagerFactory.from_str` and
  `list_possible_issue_types`;
* `cleanlab/classification.py` — the `RankPruning` estimator: `__init__`,
  `fit` (input validation, the four estimation branches, positive-unlabeled
  zeroing, pruning, sample weights, the final classifier fit) and `score`;
* the latent-algebra conversions `compute_py_inv_noise_matrix` and
  `compute_noise_matrix_from_inverse` (module `cleanlab.latent_algebra` is
  not part of the sources at hand, so these are modelled from the spec).

Python dictionaries are embedded as association lists, numpy float arrays as
rational-valued functions or lists (exact arithmetic stands in for floating
point), and the wrapped classifier as a record of its duck-typed
capabilities.  Calls into collaborator modules that are absent from the
sources (cross-validated probability estimation, pruning) are abstracted as
record fields, and every call fit makes to them is recorded in an explicit
event trace so that claims about "which calls happen when" are statable.
-/

namespace Cleanlab

/-- Python exception values that the embedded code can raise. -/
inductive PyErr where
  | valueError (msg : String)
  | nameError (name : String)
  deriving DecidableEq, Repr

/-! ## Issue-manager factory (`issue_manager_factory.py`)

Classes are embedded as records carrying the data the factory inspects:
the `issue_name` class attribute, whether the class is a subclass of
`IssueManager`, and a tag distinguishing distinct class objects. -/

/-- An issue-manager class object, as seen by the factory: its
`issue_name` attribute, its subclass relationship to `IssueManager`, and an
identity tag (two registered classes with the same name and flag are still
different objects when their tags differ). -/
structure IMClass where
  issue_name : String
  isSubclassOfIssueManager : Bool
  tag : ℕ
  deriving DecidableEq, Repr

/-- Lookup in an association list embedding a Python dict (first match). -/
def alLookup {β : Type} (l : List (String × β)) (k : String) : Option β :=
  match l with
  | [] => none
  | (k', v) :: rest => if k' = k then some v else alLookup rest k

/-- Assignment `d[k] = v` on an association list embedding a Python dict:
replaces the first entry with key `k`, preserving its position, or appends
a new entry when the key is absent. -/
def alInsert {β : Type} (l : List (String × β)) (k : String) (v : β) :
    List (String × β) :=
  match l with
  | [] => [(k, v)]
  | (k', v') :: rest =>
      if k' = k then (k', v) :: rest else (k', v') :: alInsert rest k v

/-- The registry type: a dict from task name to a dict from issue name to
issue-manager class. -/
abbrev Registry := List (String × List (String × IMClass))

/-- The mutation `REGISTRY[task][name] = cls` as a pure update: replaces
the inner dict of `task` by its update at `name`. -/
def registryUpdate (reg : Registry) (task name : String) (cls : IMClass) :
    Registry :=
  reg.map fun p => if p.1 = task then (p.1, alInsert p.2 name cls) else p

/-- Embeds `OutlierIssueManager` (imported class object). -/
def OutlierIssueManager : IMClass := ⟨"outlier", true, 0⟩

/-- Embeds `LabelIssueManager` (imported class object). -/
def LabelIssueManager : IMClass := ⟨"label", true, 1⟩

/-- Embeds `NearDuplicateIssueManager` (imported class object). -/
def NearDuplicateIssueManager : IMClass := ⟨"near_duplicate", true, 2⟩

/-- Embeds `NonIIDIssueManager` (imported class object). -/
def NonIIDIssueManager : IMClass := ⟨"non_iid", true, 3⟩

/-- Embeds `ClassImbalanceIssueManager` (imported class object). -/
def ClassImbalanceIssueManager : IMClass := ⟨"class_imbalance", true, 4⟩

/-- Embeds `DataValuationIssueManager` (imported class object). -/
def DataValuationIssueManager : IMClass := ⟨"data_valuation", true, 5⟩

/-- Embeds `RegressionLabelIssueManager` (imported class object). -/
def RegressionLabelIssueManager : IMClass := ⟨"label", true, 6⟩

/-- The module-level `REGISTRY` literal of `issue_manager_factory.py`. -/
def defaultRegistry : Registry :=
  [("classification",
     [("outlier", OutlierIssueManager),
      ("label", LabelIssueManager),
      ("near_duplicate", NearDuplicateIssueManager),
      ("non_iid", NonIIDIssueManager),
      ("class_imbalance", ClassImbalanceIssueManager),
      ("data_valuation", DataValuationIssueManager)]),
   ("regression",
     [("label", RegressionLabelIssueManager)])]

/-- The `issue_type` argument of `from_str` as a Python value: the code
distinguishes a string from a list of strings with `isinstance`. -/
inductive IssueTypeArg where
  | str (s : String)
  | list (l : List String)
  deriving DecidableEq, Repr

/-- Embeds `_IssueManagerFactory.from_str(issue_type, task)`: rejects list
arguments, unknown tasks and unknown issue types with `ValueError`,
otherwise returns `REGISTRY[task][issue_type]`. The registry is passed
explicitly (it is module-level mutable state in Python). -/
def from_str (reg : Registry) (issue_type : IssueTypeArg) (task : String) :
    Except PyErr IMClass :=
  match issue_type with
  | .list _ =>
      .error (.valueError
        "issue_type must be a string, not a list. Try using from_list instead.")
  | .str it =>
      match alLookup reg task with
      | none => .error (.valueError ("Invalid task type: " ++ task))
      | some entries =>
          match alLookup entries it with
          | none =>
              .error (.valueError ("Invalid issue type: " ++ it ++ " for task " ++ task))
          | some c => .ok c

/-- Embeds `register(cls, task)`: requires `cls` to be an `IssueManager`
subclass and `task` to be a known task, prints a warning when the
`issue_name` is already registered, then assigns
`REGISTRY[task][cls.issue_name] = cls` and returns `cls`.  The result
carries the updated registry, the printed warnings and the returned class. -/
def register (reg : Registry) (cls : IMClass) (task : String) :
    Except PyErr (Registry × List String × IMClass) :=
  if ¬ cls.isSubclassOfIssueManager then
    .error (.valueError "Class must be a subclass of IssueManager")
  else
    match alLookup reg task with
    | none => .error (.valueError ("Invalid task type: " ++ task))
    | some entries =>
        let name := cls.issue_name
        let warnings :=
          if (alLookup entries name).isSome then
            ["Warning: Overwriting existing issue manager " ++ name ++
              " for task " ++ task ++ ". This may cause unexpected behavior."]
          else []
        .ok (registryUpdate reg task name cls, warnings, cls)

/-- Embeds `list_possible_issue_types(task)`:
`list(REGISTRY.get(task, []))`, i.e. the keys of the task's dict, or the
empty list when the task is unknown. -/
def list_possible_issue_types (reg : Registry) (task : String) : List String :=
  ((alLookup reg task).getD []).map Prod.fst

/-- Embeds `list_default_issue_types(task)`. -/
def list_default_issue_types (task : String) : List String :=
  if task = "regression" then ["label"]
  else ["label", "outlier", "near_duplicate", "non_iid"]

/-! ## RankPruning (`classification.py`)

Numpy arrays become rational-valued data: a `K × K` float matrix becomes a
total function `ℕ → ℕ → ℚ` whose meaningful extent is the `K × K` block
(per the documented shape contract, supplied matrices have shape `(K, K)`
with `K` the number of classes, so `np.trace` over the array's own diagonal
coincides with the trace over that block); the label vector `s` becomes a
`List ℕ`; the probability matrix `psx` becomes a list of rows `ℕ → ℚ`. -/

/-- Square rational matrix indexed by naturals (a numpy `(K, K)` float array). -/
abbrev NMat := ℕ → ℕ → ℚ

/-- Probability-matrix type: one row per example. -/
abbrev Psx := List (ℕ → ℚ)

/-- The wrapped classifier's duck-typed capability record: which methods it
has and the parameter names of `fit` and `score` (what
`inspect.getfullargspec` reports). -/
structure ClfSpec where
  hasFit : Bool
  hasPredictProba : Bool
  hasPredict : Bool
  fitArgs : List String
  hasScore : Bool
  scoreArgs : List String
  deriving DecidableEq, Repr

/-- The `RankPruning.__init__` hyper-parameters stored on `self`. -/
structure RPConfig where
  seed : Option ℕ
  cv_n_folds : ℕ
  prune_method : String
  prune_count_method : String
  converge_latent_estimates : Bool
  pulearning : Option ℕ
  deriving DecidableEq, Repr

/-- Observable effects of the embedded `RankPruning` code, in program
order: global numpy RNG seeding, each call into the estimation
collaborators (with the seed it was handed), the latent-algebra derivation
calls, and each `clf.fit` call with its arguments. `α` is the feature type. -/
inductive FitEvent (α : Type) where
  | seedGlobalRng (n : ℕ)
  | estimateFull (seed : Option ℕ)
  | estimateFromProb
  | estimateCvPsx (seed : Option ℕ)
  | deriveInverseFromNoise
  | deriveNoiseFromInverse
  | clfFit (x : List α) (y : List ℕ) (sample_weight : Option (List ℚ))
  deriving DecidableEq

/-- Embeds `RankPruning.__init__(clf, seed, ...)`: validates that the
classifier defines `fit`, `predict_proba` and `predict` (in that order),
then, when a seed is supplied, calls `np.random.seed(seed)` — a mutation of
the global numpy random state at construction time.  Returns the list of
global-RNG effects performed. -/
def rankPruningInitEvents (clf : ClfSpec) (seed : Option ℕ) :
    Except PyErr (List (FitEvent Unit)) :=
  if ¬ clf.hasFit then
    .error (.valueError "The classifier (clf) must define a .fit() method.")
  else if ¬ clf.hasPredictProba then
    .error (.valueError "The classifier (clf) must define a .predict_proba() method.")
  else if ¬ clf.hasPredict then
    .error (.valueError "The classifier (clf) must define a .predict() method.")
  else
    .ok (match seed with
         | some n => [.seedGlobalRng n]
         | none => [])

/-- Number of classes: `len(np.unique(s))`. -/
def numClasses (s : List ℕ) : ℕ := s.dedup.length

/-- Modelled from the spec: `assert_inputs_are_valid(X, s, psx)` from
`cleanlab.util` (not in the sources at hand) — validates matching lengths
and that label values lie in `{0, …, K-1}` (every class appears, so labels
below the number of distinct values is exactly that condition), per spec
§4.5/§7.  Cross-validation additionally needs a nonempty dataset. -/
def assert_inputs_are_valid {α : Type} (X : List α) (s : List ℕ)
    (psx : Option Psx) : Prop :=
  X.length = s.length ∧ s ≠ [] ∧
  (∀ p ∈ psx, p.length = s.length) ∧
  (∀ l ∈ s, l < numClasses s)

instance {α : Type} (X : List α) (s : List ℕ) (psx : Option Psx) :
    Decidable (assert_inputs_are_valid X s psx) := by
  unfold assert_inputs_are_valid; infer_instance

/-- Embeds `np.trace` of a `K × K` matrix. -/
def npTrace (K : ℕ) (m : NMat) : ℚ := ∑ k in Finset.range K, m k k

/-- Embeds `ps = value_counts(s) / float(len(s))`: the noisy-label prior
(for a class index `k`, the fraction of examples labeled `k`). -/
def psOf (s : List ℕ) : ℕ → ℚ := fun k => (s.count k : ℚ) / (s.length : ℚ)

/-- Boolean-mask selection `xs[~mask]`: keeps the entries whose mask bit is
`false` (numpy requires equal lengths; `zip` realizes that contract). -/
def keepUnmasked {β : Type} (xs : List β) (mask : List Bool) : List β :=
  ((xs.zip mask).filter fun p => !p.2).map Prod.fst

/-- One pass of the sample-weight loop body: `w[s_pruned == k] = 1.0 /
noise_matrix[k][k]`. -/
def assignWeightForClass (nm : NMat) (sPruned : List ℕ) (w : List ℚ) (k : ℕ) :
    List ℚ :=
  (w.zip sPruned).map fun p => if p.2 = k then 1 / nm k k else p.1

/-- Embeds the sample-weight computation of `fit`:
`np.ones(np.shape(s_pruned))` followed by the loop
`for k in range(K): w[s_pruned == k] = 1.0 / noise_matrix[k][k]`. -/
def sampleWeightOf (K : ℕ) (nm : NMat) (sPruned : List ℕ) : List ℚ :=
  (List.range K).foldl (assignWeightForClass nm sPruned)
    (sPruned.map fun _ => (1 : ℚ))

/-- Modelled from the spec: `remove_noise_from_class(noise_matrix,
class_without_noise)` from `cleanlab.util` (not in the sources at hand) —
zeroes the noise matrix's off-diagonal row and column entries for the
designated noise-free class and keeps each column a distribution by
restoring its sum to 1 through the diagonal entry (spec §4.5, §8). -/
def remove_noise_from_class (K : ℕ) (nm : NMat) (c : ℕ) : NMat :=
  let z : NMat := fun i j =>
    if (i = c ∧ j ≠ c) ∨ (j = c ∧ i ≠ c) then 0 else nm i j
  fun i j =>
    if i = j then 1 - (∑ i' in Finset.range K, z i' j) + z j j else z i j

/-! ## Latent algebra (spec-modelled, `cleanlab.latent_algebra`)

The module is not among the sources at hand; the two conversions `fit`
imports from it are modelled from spec §4.3. -/

/-- View of the `K × K` block of an `NMat` as a Mathlib matrix. -/
def finOf (K : ℕ) (m : NMat) : Matrix (Fin K) (Fin K) ℚ :=
  Matrix.of fun i j => m i j

/-- Embeds `np.linalg.inv` on the `K × K` block: the inverse
`det⁻¹ • adjugate` (the zero matrix outside the block and for a singular
input, where numpy would raise). -/
def npLinalgInv (K : ℕ) (m : NMat) : NMat := fun i j =>
  if h : i < K ∧ j < K then
    (((finOf K m).det)⁻¹ • (finOf K m).adjugate) ⟨i, h.1⟩ ⟨j, h.2⟩
  else 0

/-- Matrix–vector product over the `K × K` block. -/
def mulVecK (K : ℕ) (m : NMat) (v : ℕ → ℚ) : ℕ → ℚ := fun i =>
  if i < K then ∑ j in Finset.range K, m i j * v j else 0

/-- Modelled from the spec: the clip/renormalize guard of §4.3 — clamps
each of the `K` entries into `[0, 1]` and rescales so the entries sum to 1
(left unscaled when everything clamps to zero). -/
def clip_values (K : ℕ) (v : ℕ → ℚ) : ℕ → ℚ :=
  let c : ℕ → ℚ := fun y => if y < K then max 0 (min 1 (v y)) else 0
  let t := ∑ y in Finset.range K, c y
  if t = 0 then c else fun y => c y / t

/-- Modelled from the spec: `compute_py_inv_noise_matrix(ps, noise_matrix)`
from `cleanlab.latent_algebra` (not in the sources at hand) — applies
Bayes' rule using the noise matrix and the prior `ps`: recovers `py` by
solving `ps = noise_matrix · py` (matrix inversion), guards it with the
clip/renormalize pass, and returns it with the inverse noise matrix
`P(y|s)[y][s] = P(s|y)[s][y] · py[y] / ps[s]` (spec §4.3). -/
def compute_py_inv_noise_matrix (K : ℕ) (ps : ℕ → ℚ) (nm : NMat) :
    (ℕ → ℚ) × NMat :=
  let py := clip_values K (mulVecK K (npLinalgInv K nm) ps)
  (py, fun y s => if y < K ∧ s < K then nm s y * py y / ps s else 0)

/-- Modelled from the spec: `compute_noise_matrix_from_inverse(ps,
inverse_noise_matrix)` from `cleanlab.latent_algebra` (not in the sources
at hand) — the reverse Bayes direction: `py[y] = Σ_s P(y|s)[y][s] · ps[s]`
and `P(s|y)[s][y] = P(y|s)[y][s] · ps[s] / py[y]` (spec §4.3). -/
def compute_noise_matrix_from_inverse (K : ℕ) (ps : ℕ → ℚ) (inv : NMat) :
    NMat := fun s y =>
  if s < K ∧ y < K then
    inv y s * ps s / (∑ s' in Finset.range K, inv y s' * ps s')
  else 0

/-! ## The fit model

The estimation and pruning collaborators (`cleanlab.latent_estimation`,
`cleanlab.pruning`, both absent from the sources at hand) are abstracted as
a record of functions with the argument lists `fit` passes them; the claims
about `fit` hold for every such collaborator. -/

/-- The collaborator functions `fit` calls, with the arguments the call
sites pass (`clf` is passed as its capability record). -/
structure Estimators (α : Type) where
  estimate_py_noise_matrices_and_cv_pred_proba :
    List α → List ℕ → ClfSpec → ℕ → Option (ℕ → ℚ) → Bool → Option ℕ →
      (ℕ → ℚ) × NMat × NMat × NMat × Psx
  estimate_py_and_noise_matrices_from_probabilities :
    List ℕ → Psx → Option (ℕ → ℚ) → Bool → (ℕ → ℚ) × NMat × NMat × NMat
  estimate_cv_predicted_probabilities :
    List α → List ℕ → ClfSpec → ℕ → Option ℕ → Psx
  get_noise_indices :
    List ℕ → Psx → NMat → Option NMat → String → String → Bool → List Bool

/-- The `pulearning` step of `fit`: when a noise-free class is designated,
replaces the noise matrix by `remove_noise_from_class` of it, otherwise
leaves it unchanged. -/
def applyPulearning (pulearning : Option ℕ) (K : ℕ) (nm : NMat) : NMat :=
  match pulearning with
  | none => nm
  | some c => remove_noise_from_class K nm c

/-- Attributes `fit` leaves on `self` (the "fit result"). -/
structure FitResult where
  K : ℕ
  ps : ℕ → ℚ
  py : Option (ℕ → ℚ)
  noise_matrix : NMat
  inverse_noise_matrix : NMat
  confident_joint : Option NMat
  psx : Psx
  noise_mask : List Bool
  sample_weight : Option (List ℚ)

/-- Errors `fit` raises before doing any estimation work. -/
inductive FitError where
  | invalidInputs
  | noiseMatrixTraceLeOne
  | inverseNoiseMatrixTraceLeOne
  deriving DecidableEq, Repr

/-- Lines 246–280 of `classification.py`: resolve `psx`, the noise
matrices, `py` and the confident joint from whichever of them the caller
supplied, estimating the rest.  Returns the resolved values together with
the calls made (`py` and the confident joint stay unset on the branches
that do not produce them). -/
def resolveEstimates {α : Type} (cfg : RPConfig) (clf : ClfSpec)
    (est : Estimators α) (X : List α) (s : List ℕ) (psx? : Option Psx)
    (thresholds : Option (ℕ → ℚ)) (nm? inm? : Option NMat)
    (K : ℕ) (ps : ℕ → ℚ) :
    Option (ℕ → ℚ) × NMat × NMat × Option NMat × Option Psx ×
      List (FitEvent α) :=
  match nm?, inm? with
  | some nm, some inm => (none, nm, inm, none, psx?, [])
  | some nm, none =>
      let r := compute_py_inv_noise_matrix K ps nm
      (some r.1, nm, r.2, none, psx?, [.deriveInverseFromNoise])
  | none, some inm =>
      (none, compute_noise_matrix_from_inverse K ps inm, inm, none, psx?,
        [.deriveNoiseFromInverse])
  | none, none =>
      match psx? with
      | none =>
          let r := est.estimate_py_noise_matrices_and_cv_pred_proba X s clf
            cfg.cv_n_folds thresholds cfg.converge_latent_estimates cfg.seed
          (some r.1, r.2.1, r.2.2.1, some r.2.2.2.1, some r.2.2.2.2,
            [.estimateFull cfg.seed])
      | some p =>
          let r := est.estimate_py_and_noise_matrices_from_probabilities s p
            thresholds cfg.converge_latent_estimates
          (some r.1, r.2.1, r.2.2.1, some r.2.2.2, some p,
            [.estimateFromProb])

/-- Lines 236–318 of `classification.py`: the body of `fit` after the
input checks.  Computes `K` and `ps`, resolves estimates, fills in `psx`
by cross-validation when still absent, applies the positive-unlabeled
zeroing, computes the noise mask, prunes, and performs exactly one final
`clf.fit` call — weighted exactly when `sample_weight` is among the
parameter names of `clf.fit`. -/
def fitCore {α : Type} (cfg : RPConfig) (clf : ClfSpec) (est : Estimators α)
    (X : List α) (s : List ℕ) (psx? : Option Psx)
    (thresholds : Option (ℕ → ℚ)) (nm? inm? : Option NMat) :
    List (FitEvent α) × FitResult :=
  let K := numClasses s
  let ps := psOf s
  let r := resolveEstimates cfg clf est X s psx? thresholds nm? inm? K ps
  let py? := r.1
  let nm := r.2.1
  let inm := r.2.2.1
  let cj? := r.2.2.2.1
  let evs₀ := r.2.2.2.2.2
  let psxPair : Psx × List (FitEvent α) :=
    match r.2.2.2.2.1 with
    | some p => (p, evs₀)
    | none =>
        (est.estimate_cv_predicted_probabilities X s clf cfg.cv_n_folds
          cfg.seed, evs₀ ++ [.estimateCvPsx cfg.seed])
  let psx := psxPair.1
  let evs₁ := psxPair.2
  let nmFinal := applyPulearning cfg.pulearning K nm
  let mask := est.get_noise_indices s psx inm cj? cfg.prune_method
    cfg.prune_count_method cfg.converge_latent_estimates
  let XPruned := keepUnmasked X mask
  let sPruned := keepUnmasked s mask
  if "sample_weight" ∈ clf.fitArgs then
    let w := sampleWeightOf K nmFinal sPruned
    (evs₁ ++ [.clfFit XPruned sPruned (some w)],
      ⟨K, ps, py?, nmFinal, inm, cj?, psx, mask, some w⟩)
  else
    (evs₁ ++ [.clfFit XPruned sPruned none],
      ⟨K, ps, py?, nmFinal, inm, cj?, psx, mask, none⟩)

/-- Guard of the trace checks: a matrix was supplied and its trace is at
most 1 (`np.trace(m) <= 1`). -/
def suppliedTraceLeOne (K : ℕ) : Option NMat → Bool
  | none => false
  | some m => decide (npTrace K m ≤ 1)

/-- Embeds `RankPruning.fit(X, s, psx, thresholds, noise_matrix,
inverse_noise_matrix)`: validates the inputs, rejects a supplied noise or
inverse-noise matrix whose trace does not exceed 1, then runs `fitCore`.
Returns the event trace together with the outcome; an error carries an
empty trace — no collaborator call and no `clf.fit` call happened. -/
def fitModel {α : Type} (cfg : RPConfig) (clf : ClfSpec) (est : Estimators α)
    (X : List α) (s : List ℕ) (psx? : Option Psx)
    (thresholds : Option (ℕ → ℚ)) (nm? inm? : Option NMat) :
    List (FitEvent α) × Except FitError FitResult :=
  if ¬ assert_inputs_are_valid X s psx? then ([], .error .invalidInputs)
  else if suppliedTraceLeOne (numClasses s) nm? then
    ([], .error .noiseMatrixTraceLeOne)
  else if suppliedTraceLeOne (numClasses s) inm? then
    ([], .error .inverseNoiseMatrixTraceLeOne)
  else
    let r := fitCore cfg clf est X s psx? thresholds nm? inm?
    (r.1, .ok r.2)

/-- Parameter names bound in the body of `RankPruning.score`. -/
def scoreBoundNames : List String := ["self", "X", "y", "sample_weight"]

/-- The variable the fallback branch of `score` passes to
`self.clf.predict`: the identifier `X_val`, which is bound nowhere in
`classification.py`. -/
def scoreFallbackArgName : String := "X_val"

/-- Outcome of a successful `score` call. -/
inductive ScoreResult where
  | delegated (withSampleWeight : Bool)
  | accuracyFallback
  deriving DecidableEq, Repr

/-- Embeds `RankPruning.score(X, y, sample_weight)`: delegates to
`clf.score` when the wrapped classifier has one (passing `sample_weight`
exactly when `clf.score` accepts it); otherwise evaluates
`accuracy_score(y, self.clf.predict(X_val), sample_weight=sample_weight)`,
whose argument `X_val` must first be resolved as a name — `NameError` when
it is bound neither in the method nor at module level. -/
def scoreModel (clf : ClfSpec) : Except PyErr ScoreResult :=
  if clf.hasScore then
    if "sample_weight" ∈ clf.scoreArgs then .ok (.delegated true)
    else .ok (.delegated false)
  else if scoreFallbackArgName ∈ scoreBoundNames then .ok .accuracyFallback
  else .error (.nameError scoreFallbackArgName)

/-! ## Event classifiers and concrete fixtures -/

/-- Marks the events that are estimation or derivation calls (as opposed
to classifier fits or RNG effects). -/
def isEstimationEvent {α : Type} : FitEvent α → Bool
  | .estimateFull _ => true
  | .estimateFromProb => true
  | .estimateCvPsx _ => true
  | .deriveInverseFromNoise => true
  | .deriveNoiseFromInverse => true
  | _ => false

/-- Marks the `clf.fit` call events. -/
def isClfFitEvent {α : Type} : FitEvent α → Bool
  | .clfFit _ _ _ => true
  | _ => false

/-- Marks the global-RNG mutation events. -/
def isSeedGlobalRngEvent {α : Type} : FitEvent α → Bool
  | .seedGlobalRng _ => true
  | _ => false

/-- A wrapped classifier whose `fit` accepts `sample_weight` and which has
no `score` method. -/
def clfWeighted : ClfSpec :=
  ⟨true, true, true, ["self", "X", "y", "sample_weight"], false, []⟩

/-- A wrapped classifier whose `fit` takes no `sample_weight` parameter. -/
def clfUnweighted : ClfSpec := ⟨true, true, true, ["self", "X", "y"], false, []⟩

/-- A wrapped classifier with a weighted `score` method. -/
def clfScoring : ClfSpec :=
  ⟨true, true, true, ["self", "X", "y", "sample_weight"], true,
    ["self", "X", "y", "sample_weight"]⟩

/-- The default `RankPruning` hyper-parameters with a fixed seed. -/
def cfgSeeded : RPConfig :=
  ⟨some 0, 5, "prune_by_noise_rate", "inverse_nm_dot_s", false, none⟩

/-- Hyper-parameters with class 0 designated noise-free. -/
def cfgPu : RPConfig :=
  ⟨some 0, 5, "prune_by_noise_rate", "inverse_nm_dot_s", false, some 0⟩

/-- A concrete collaborator instance: estimators returning fixed values
and a pruner keeping every example. -/
def estConst : Estimators ℕ where
  estimate_py_noise_matrices_and_cv_pred_proba := fun _ _ _ _ _ _ _ =>
    (fun _ => 0, fun _ _ => 0, fun _ _ => 0, fun _ _ => 0, [])
  estimate_py_and_noise_matrices_from_probabilities := fun _ _ _ _ =>
    (fun _ => 0, fun _ _ => 0, fun _ _ => 0, fun _ _ => 0)
  estimate_cv_predicted_probabilities := fun _ _ _ _ _ => []
  get_noise_indices := fun s _ _ _ _ _ _ => s.map fun _ => false

/-- Concrete feature rows. -/
def X₄ : List ℕ := [10, 11, 12, 13]

/-- Concrete noisy labels over two classes. -/
def s₄ : List ℕ := [0, 1, 0, 1]

/-- A 2 × 2 noise matrix with trace 9/5 > 1. -/
def nmGood : NMat := fun i j =>
  if i < 2 ∧ j < 2 then (if i = j then (9 : ℚ)/10 else 1/10) else 0

/-- The all-1/2 2 × 2 matrix: trace exactly 1, violating the trace
precondition. -/
def nmFlat : NMat := fun i j => if i < 2 ∧ j < 2 then (1 : ℚ)/2 else 0

/-- The uniform prior on two classes. -/
def psHalf : ℕ → ℚ := fun s => if s < 2 then 1/2 else 0

/-- The uniform prior on three classes. -/
def psThird : ℕ → ℚ := fun s => if s < 3 then 1/3 else 0

/-- A well-conditioned 2 × 2 inverse noise matrix (columns sum to 1,
trace 3/2). -/
def invGood : NMat := fun y s =>
  if y < 2 ∧ s < 2 then (if y = s then (3 : ℚ)/4 else 1/4) else 0

/-- A 3 × 3 inverse noise matrix with columns summing to 1 and trace 2,
whose derived noise matrix is singular (its first two rows coincide). -/
def invSingular : NMat := fun y s =>
  if y < 3 ∧ s < 3 then
    (if y < 2 ∧ s < 2 then (1 : ℚ)/2 else if y = 2 ∧ s = 2 then 1 else 0)
  else 0

/-- The entries registered under the `"classification"` task in the
default registry. -/
def classificationEntries : List (String × IMClass) :=
  [("outlier", OutlierIssueManager),
   ("label", LabelIssueManager),
   ("near_duplicate", NearDuplicateIssueManager),
   ("non_iid", NonIIDIssueManager),
   ("class_imbalance", ClassImbalanceIssueManager),
   ("data_valuation", DataValuationIssueManager)]

/-- A fresh issue-manager subclass whose `issue_name` collides with the
already-registered `"label"` manager. -/
def labelOverride : IMClass := ⟨"label", true, 100⟩

/-! # Theorems -/

/-! ## Association-list lemmas -/

theorem alLookup_alInsert_self {β : Type} (l : List (String × β)) (k : String)
    (v : β) : alLookup (alInsert l k v) k = some v := by
  induction l with
  | nil => simp [alInsert, alLookup]
  | cons p rest ih =>
      rcases p with ⟨k', v'⟩
      by_cases h : k' = k <;> simp [alInsert, alLookup, h, ih]

theorem alLookup_registryUpdate (reg : Registry) (task name : String)
    (cls : IMClass) :
    alLookup (registryUpdate reg task name cls) task =
      (alLookup reg task).map fun e => alInsert e name cls := by
  induction reg with
  | nil => simp [registryUpdate, alLookup]
  | cons p rest ih =>
      rcases p with ⟨k, v⟩
      simp only [registryUpdate, List.map_cons] at ih ⊢
      by_cases h : k = task
      · rw [if_pos h]
        simp [alLookup, h]
      · rw [if_neg h]
        simp [alLookup, h, ih]

/-! ## C9: registering under an existing issue name overwrites -/

/-- C9: for a class already registered under a task, `register` with a new
`IssueManager` subclass bearing the same `issue_name` does not raise: it
returns the updated registry, a nonempty warning list, and the very class
passed in, and `from_str` on the new registry resolves the name to the new
class. -/
theorem register_overwrite_returns_class
    (reg : Registry) (cls : IMClass) (task : String)
    (entries : List (String × IMClass))
    (hsub : cls.isSubclassOfIssueManager = true)
    (htask : alLookup reg task = some entries)
    (hdup : (alLookup entries cls.issue_name).isSome = true) :
    ∃ reg' w, register reg cls task = .ok (reg', w, cls) ∧ w ≠ [] ∧
      from_str reg' (.str cls.issue_name) task = .ok cls := by
  refine ⟨registryUpdate reg task cls.issue_name cls,
    ["Warning: Overwriting existing issue manager " ++ cls.issue_name ++
      " for task " ++ task ++ ". This may cause unexpected behavior."],
    ?_, ?_, ?_⟩
  · simp [register, hsub, htask, hdup]
  · simp
  · simp [from_str, alLookup_registryUpdate, htask, alLookup_alInsert_self]

/-- C9 witness: overriding the `"label"` manager for classification. -/
theorem register_overwrite_returns_class_witness :
    (labelOverride.isSubclassOfIssueManager = true ∧
     alLookup defaultRegistry "classification" = some classificationEntries ∧
     (alLookup classificationEntries labelOverride.issue_name).isSome = true) ∧
    (∃ reg' w,
      register defaultRegistry labelOverride "classification" =
        .ok (reg', w, labelOverride) ∧ w ≠ [] ∧
      from_str reg' (.str labelOverride.issue_name) "classification" =
        .ok labelOverride) :=
  ⟨⟨by decide, by decide, by decide⟩,
   register_overwrite_returns_class defaultRegistry labelOverride
     "classification" classificationEntries (by decide) (by decide) (by decide)⟩

/-! ## C10: unknown tasks — empty list vs `ValueError` -/

/-- C10: for a task not in the registry, `list_possible_issue_types`
returns the empty list rather than raising, while `from_str` raises
`ValueError` for that same unknown task; `from_str` also raises
`ValueError` when `issue_type` is a list, and when the issue type is not
registered under a known task. -/
theorem list_possible_issue_types_unknown_task
    (reg : Registry) (task : String) (h : alLookup reg task = none) :
    list_possible_issue_types reg task = [] ∧
    (∀ it, from_str reg (.str it) task =
      .error (.valueError ("Invalid task type: " ++ task))) ∧
    (∀ l t, from_str reg (.list l) t =
      .error (.valueError
        "issue_type must be a string, not a list. Try using from_list instead.")) ∧
    (∀ t entries it, alLookup reg t = some entries →
      alLookup entries it = none →
      from_str reg (.str it) t =
        .error (.valueError ("Invalid issue type: " ++ it ++ " for task " ++ t))) := by
  refine ⟨?_, ?_, ?_, ?_⟩
  · simp [list_possible_issue_types, h]
  · intro it; simp [from_str, h]
  · intro l t; simp [from_str]
  · intro t entries it ht hit; simp [from_str, ht, hit]

/-- C10 witness: the unknown task `"c3po"` against the default registry,
and the unknown issue type `"wookiee"` under `"classification"`. -/
theorem list_possible_issue_types_unknown_task_witness :
    (alLookup defaultRegistry "c3po" = none) ∧
    (list_possible_issue_types defaultRegistry "c3po" = [] ∧
     (∀ it, from_str defaultRegistry (.str it) "c3po" =
       .error (.valueError ("Invalid task type: " ++ "c3po"))) ∧
     (∀ l t, from_str defaultRegistry (.list l) t =
       .error (.valueError
         "issue_type must be a string, not a list. Try using from_list instead.")) ∧
     (∀ t entries it, alLookup defaultRegistry t = some entries →
       alLookup entries it = none →
       from_str defaultRegistry (.str it) t =
         .error (.valueError ("Invalid issue type: " ++ it ++ " for task " ++ t)))) :=
  ⟨by decide, list_possible_issue_types_unknown_task defaultRegistry "c3po" (by decide)⟩

/-! ## C4: `score` fallback for a classifier without a scorer -/

/-- C4: the fallback branch of `RankPruning.score` for a wrapped
classifier lacking a `score` method does not return an accuracy: it
evaluates the unbound name `X_val` and raises `NameError`, while the
delegation branch for a classifier with a scorer works as documented. -/
theorem score_missing_scorer_raises_name_error :
    scoreModel clfUnweighted = .error (.nameError "X_val") ∧
    scoreModel clfScoring = .ok (.delegated true) :=
  ⟨rfl, rfl⟩

/-! ## C3: seeding is not scoped to the fit call -/

/-- C3 counterexample: constructing `RankPruning` with `seed = 0` (and a
well-formed classifier) performs a `np.random.seed` mutation of global
random state at construction time, so random-state use is not scoped to
the fit call. -/
theorem rankPruning_construction_seeds_global_rng :
    rankPruningInitEvents clfWeighted (some 0) =
      .ok [FitEvent.seedGlobalRng 0] ∧
    (FitEvent.seedGlobalRng 0 : FitEvent Unit) ∈
      ([FitEvent.seedGlobalRng 0] : List (FitEvent Unit)) ∧
    ([FitEvent.seedGlobalRng 0] : List (FitEvent Unit)) ≠ [] := by
  refine ⟨rfl, by simp, by simp⟩

/-! ## C1: trace ≤ 1 fails fast -/

/-- C1: whenever the supplied noise matrix or inverse noise matrix has
trace at most 1, `fit` raises with an empty event trace: no
cross-validation or estimation call and no `clf.fit` call happened, so the
wrapped classifier is untouched. -/
theorem fit_trace_le_one_raises {α : Type} (cfg : RPConfig) (clf : ClfSpec)
    (est : Estimators α) (X : List α) (s : List ℕ) (psx? : Option Psx)
    (th : Option (ℕ → ℚ)) (nm? inm? : Option NMat)
    (h : (∃ nm, nm? = some nm ∧ npTrace (numClasses s) nm ≤ 1) ∨
         (∃ inm, inm? = some inm ∧ npTrace (numClasses s) inm ≤ 1)) :
    ∃ e, fitModel cfg clf est X s psx? th nm? inm? = ([], .error e) := by
  unfold fitModel
  by_cases hv : assert_inputs_are_valid X s psx?
  · rcases h with ⟨nm, hnm, hle⟩ | ⟨inm, hinm, hle⟩
    · subst hnm
      simp [hv, suppliedTraceLeOne, hle]
    · subst hinm
      cases nm? with
      | none => simp [hv, suppliedTraceLeOne, hle]
      | some nm' =>
          by_cases hb : npTrace (numClasses s) nm' ≤ 1
          · simp [hv, suppliedTraceLeOne, hb]
          · simp [hv, suppliedTraceLeOne, hb, hle]
  · simp [hv]

/-- C1 witness: supplying the all-1/2 noise matrix (trace exactly 1) on a
two-class dataset makes `fit` fail with no recorded work. -/
theorem fit_trace_le_one_raises_witness :
    ((∃ nm, (some nmFlat : Option NMat) = some nm ∧
        npTrace (numClasses s₄) nm ≤ 1) ∨
     (∃ inm, (none : Option NMat) = some inm ∧
        npTrace (numClasses s₄) inm ≤ 1)) ∧
    (∃ e, fitModel cfgSeeded clfWeighted estConst X₄ s₄ none none
        (some nmFlat) none = ([], .error e)) :=
  have hle : npTrace (numClasses s₄) nmFlat ≤ 1 := by
    have h2 : numClasses s₄ = 2 := by decide
    rw [h2]
    unfold npTrace
    rw [Finset.sum_range_succ, Finset.sum_range_succ, Finset.sum_range_zero]
    norm_num [nmFlat]
  ⟨Or.inl ⟨nmFlat, rfl, hle⟩,
   fit_trace_le_one_raises cfgSeeded clfWeighted estConst X₄ s₄ none none
     (some nmFlat) none (Or.inl ⟨nmFlat, rfl, hle⟩)⟩

/-! ## Fit-model plumbing -/

theorem fitModel_ok {α : Type} (cfg : RPConfig) (clf : ClfSpec)
    (est : Estimators α) (X : List α) (s : List ℕ) (psx? : Option Psx)
    (th : Option (ℕ → ℚ)) (nm? inm? : Option NMat)
    (hv : assert_inputs_are_valid X s psx?)
    (hnm : suppliedTraceLeOne (numClasses s) nm? = false)
    (hinm : suppliedTraceLeOne (numClasses s) inm? = false) :
    fitModel cfg clf est X s psx? th nm? inm? =
      ((fitCore cfg clf est X s psx? th nm? inm?).1,
       .ok (fitCore cfg clf est X s psx? th nm? inm?).2) := by
  simp [fitModel, hv, hnm, hinm]

/-! ## C2: the four estimation branches of `fit` -/

/-- C2: for every run of `fit` that passes validation, the estimation path
is resolved by which optional matrices were supplied: with neither matrix,
everything (`py`, both matrices, the confident joint, and `psx` when
absent) is estimated from scratch; with exactly one matrix, the other is
derived from it and the prior `ps` via the latent algebra; with both, no
noise estimation occurs and `psx` is computed only when not supplied. -/
theorem fit_estimation_path {α : Type} (cfg : RPConfig) (clf : ClfSpec)
    (est : Estimators α) (X : List α) (s : List ℕ) (psx? : Option Psx)
    (th : Option (ℕ → ℚ)) (nm? inm? : Option NMat)
    (hv : assert_inputs_are_valid X s psx?)
    (hnm : suppliedTraceLeOne (numClasses s) nm? = false)
    (hinm : suppliedTraceLeOne (numClasses s) inm? = false) :
    fitModel cfg clf est X s psx? th nm? inm? =
      ((fitCore cfg clf est X s psx? th nm? inm?).1,
       .ok (fitCore cfg clf est X s psx? th nm? inm?).2) ∧
    (nm? = none → inm? = none → psx? = none →
      (fitCore cfg clf est X s psx? th nm? inm?).1.filter isEstimationEvent
          = [.estimateFull cfg.seed] ∧
      (fitCore cfg clf est X s psx? th nm? inm?).2.py =
        some (est.estimate_py_noise_matrices_and_cv_pred_proba X s clf
          cfg.cv_n_folds th cfg.converge_latent_estimates cfg.seed).1 ∧
      (fitCore cfg clf est X s psx? th nm? inm?).2.noise_matrix =
        applyPulearning cfg.pulearning (numClasses s)
          (est.estimate_py_noise_matrices_and_cv_pred_proba X s clf
            cfg.cv_n_folds th cfg.converge_latent_estimates cfg.seed).2.1 ∧
      (fitCore cfg clf est X s psx? th nm? inm?).2.inverse_noise_matrix =
        (est.estimate_py_noise_matrices_and_cv_pred_proba X s clf
          cfg.cv_n_folds th cfg.converge_latent_estimates cfg.seed).2.2.1 ∧
      (fitCore cfg clf est X s psx? th nm? inm?).2.confident_joint =
        some (est.estimate_py_noise_matrices_and_cv_pred_proba X s clf
          cfg.cv_n_folds th cfg.converge_latent_estimates cfg.seed).2.2.2.1 ∧
      (fitCore cfg clf est X s psx? th nm? inm?).2.psx =
        (est.estimate_py_noise_matrices_and_cv_pred_proba X s clf
          cfg.cv_n_folds th cfg.converge_latent_estimates cfg.seed).2.2.2.2) ∧
    (nm? = none → inm? = none → ∀ p, psx? = some p →
      (fitCore cfg clf est X s psx? th nm? inm?).1.filter isEstimationEvent
          = [.estimateFromProb] ∧
      (fitCore cfg clf est X s psx? th nm? inm?).2.py =
        some (est.estimate_py_and_noise_matrices_from_probabilities s p th
          cfg.converge_latent_estimates).1 ∧
      (fitCore cfg clf est X s psx? th nm? inm?).2.noise_matrix =
        applyPulearning cfg.pulearning (numClasses s)
          (est.estimate_py_and_noise_matrices_from_probabilities s p th
            cfg.converge_latent_estimates).2.1 ∧
      (fitCore cfg clf est X s psx? th nm? inm?).2.inverse_noise_matrix =
        (est.estimate_py_and_noise_matrices_from_probabilities s p th
          cfg.converge_latent_estimates).2.2.1 ∧
      (fitCore cfg clf est X s psx? th nm? inm?).2.confident_joint =
        some (est.estimate_py_and_noise_matrices_from_probabilities s p th
          cfg.converge_latent_estimates).2.2.2 ∧
      (fitCore cfg clf est X s psx? th nm? inm?).2.psx = p) ∧
    (∀ nm, nm? = some nm → inm? = none →
      (fitCore cfg clf est X s psx? th nm? inm?).1.filter isEstimationEvent
          = .deriveInverseFromNoise ::
            (if psx?.isNone then [.estimateCvPsx cfg.seed] else []) ∧
      (fitCore cfg clf est X s psx? th nm? inm?).2.py =
        some (compute_py_inv_noise_matrix (numClasses s) (psOf s) nm).1 ∧
      (fitCore cfg clf est X s psx? th nm? inm?).2.noise_matrix =
        applyPulearning cfg.pulearning (numClasses s) nm ∧
      (fitCore cfg clf est X s psx? th nm? inm?).2.inverse_noise_matrix =
        (compute_py_inv_noise_matrix (numClasses s) (psOf s) nm).2 ∧
      (fitCore cfg clf est X s psx? th nm? inm?).2.confident_joint = none ∧
      (∀ p, psx? = some p →
        (fitCore cfg clf est X s psx? th nm? inm?).2.psx = p) ∧
      (psx? = none → (fitCore cfg clf est X s psx? th nm? inm?).2.psx =
        est.estimate_cv_predicted_probabilities X s clf cfg.cv_n_folds
          cfg.seed)) ∧
    (∀ inm, nm? = none → inm? = some inm →
      (fitCore cfg clf est X s psx? th nm? inm?).1.filter isEstimationEvent
          = .deriveNoiseFromInverse ::
            (if psx?.isNone then [.estimateCvPsx cfg.seed] else []) ∧
      (fitCore cfg clf est X s psx? th nm? inm?).2.py = none ∧
      (fitCore cfg clf est X s psx? th nm? inm?).2.noise_matrix =
        applyPulearning cfg.pulearning (numClasses s)
          (compute_noise_matrix_from_inverse (numClasses s) (psOf s) inm) ∧
      (fitCore cfg clf est X s psx? th nm? inm?).2.inverse_noise_matrix =
        inm ∧
      (fitCore cfg clf est X s psx? th nm? inm?).2.confident_joint = none ∧
      (∀ p, psx? = some p →
        (fitCore cfg clf est X s psx? th nm? inm?).2.psx = p) ∧
      (psx? = none → (fitCore cfg clf est X s psx? th nm? inm?).2.psx =
        est.estimate_cv_predicted_probabilities X s clf cfg.cv_n_folds
          cfg.seed)) ∧
    (∀ nm inm, nm? = some nm → inm? = some inm →
      (fitCore cfg clf est X s psx? th nm? inm?).1.filter isEstimationEvent
          = (if psx?.isNone then [.estimateCvPsx cfg.seed] else []) ∧
      (fitCore cfg clf est X s psx? th nm? inm?).2.py = none ∧
      (fitCore cfg clf est X s psx? th nm? inm?).2.noise_matrix =
        applyPulearning cfg.pulearning (numClasses s) nm ∧
      (fitCore cfg clf est X s psx? th nm? inm?).2.inverse_noise_matrix =
        inm ∧
      (fitCore cfg clf est X s psx? th nm? inm?).2.confident_joint = none ∧
      (∀ p, psx? = some p →
        (fitCore cfg clf est X s psx? th nm? inm?).2.psx = p) ∧
      (psx? = none → (fitCore cfg clf est X s psx? th nm? inm?).2.psx =
        est.estimate_cv_predicted_probabilities X s clf cfg.cv_n_folds
          cfg.seed)) := by
  refine ⟨fitModel_ok cfg clf est X s psx? th nm? inm? hv hnm hinm,
    ?_, ?_, ?_, ?_, ?_⟩
  · rintro rfl rfl rfl
    by_cases hw : "sample_weight" ∈ clf.fitArgs <;>
      simp [fitCore, resolveEstimates, isEstimationEvent, hw]
  · rintro rfl rfl p rfl
    by_cases hw : "sample_weight" ∈ clf.fitArgs <;>
      simp [fitCore, resolveEstimates, isEstimationEvent, hw]
  · rintro nm rfl rfl
    cases psx? <;>
      by_cases hw : "sample_weight" ∈ clf.fitArgs <;>
        simp [fitCore, resolveEstimates, isEstimationEvent, hw]
  · rintro inm rfl rfl
    cases psx? <;>
      by_cases hw : "sample_weight" ∈ clf.fitArgs <;>
        simp [fitCore, resolveEstimates, isEstimationEvent, hw]
  · rintro nm inm rfl rfl
    cases psx? <;>
      by_cases hw : "sample_weight" ∈ clf.fitArgs <;>
        simp [fitCore, resolveEstimates, isEstimationEvent, hw]

/-- C2 witness: the neither-matrix, no-`psx` instance on a concrete
dataset, with the preconditions discharged by computation. -/
theorem fit_estimation_path_witness :
    (assert_inputs_are_valid X₄ s₄ none ∧
     suppliedTraceLeOne (numClasses s₄) (none : Option NMat) = false) ∧
    fitModel cfgSeeded clfWeighted estConst X₄ s₄ none none none none =
      ((fitCore cfgSeeded clfWeighted estConst X₄ s₄ none none none none).1,
       .ok (fitCore cfgSeeded clfWeighted estConst X₄ s₄ none none none
          none).2) :=
  ⟨⟨by decide, by decide⟩,
   (fit_estimation_path cfgSeeded clfWeighted estConst X₄ s₄ none none none
     none (by decide) (by decide) (by decide)).1⟩

/-! ## C3 (amended): the seed is threaded, but seeding happens at
construction time -/

theorem fitCore_event_kinds {α : Type} (cfg : RPConfig) (clf : ClfSpec)
    (est : Estimators α) (X : List α) (s : List ℕ) (psx? : Option Psx)
    (th : Option (ℕ → ℚ)) (nm? inm? : Option NMat) (e : FitEvent α)
    (he : e ∈ (fitCore cfg clf est X s psx? th nm? inm?).1) :
    isSeedGlobalRngEvent e = false ∧
    (∀ sd, e = FitEvent.estimateFull sd → sd = cfg.seed) ∧
    (∀ sd, e = FitEvent.estimateCvPsx sd → sd = cfg.seed) := by
  rcases nm? with _ | nm <;> rcases inm? with _ | inm <;>
    rcases psx? with _ | p <;>
    by_cases hw : "sample_weight" ∈ clf.fitArgs <;>
    simp [fitCore, resolveEstimates, hw] at he <;>
    (first
      | (rcases he with rfl | rfl | rfl)
      | (rcases he with rfl | rfl)
      | (subst he)) <;>
    exact ⟨rfl, fun sd hh => by cases hh <;> rfl,
      fun sd hh => by cases hh <;> rfl⟩

/-- C3, amended: the stored seed is threaded unchanged into every
cross-validated estimation call `fit` makes, and `fit` itself performs no
mutation of global random state; seeding is nevertheless not scoped to the
fit call — `__init__` seeds the global numpy RNG exactly when a seed is
supplied, at construction time. -/
theorem fit_seed_scoping {α : Type} (cfg : RPConfig) (clf : ClfSpec)
    (est : Estimators α) (X : List α) (s : List ℕ) (psx? : Option Psx)
    (th : Option (ℕ → ℚ)) (nm? inm? : Option NMat) :
    (∀ e ∈ (fitModel cfg clf est X s psx? th nm? inm?).1,
      isSeedGlobalRngEvent e = false) ∧
    (∀ sd, FitEvent.estimateFull sd ∈
        (fitModel cfg clf est X s psx? th nm? inm?).1 → sd = cfg.seed) ∧
    (∀ sd, FitEvent.estimateCvPsx sd ∈
        (fitModel cfg clf est X s psx? th nm? inm?).1 → sd = cfg.seed) ∧
    (∀ (clf' : ClfSpec) (sd : Option ℕ) (evs : List (FitEvent Unit)) (n : ℕ),
      rankPruningInitEvents clf' sd = .ok evs →
      ((FitEvent.seedGlobalRng n : FitEvent Unit) ∈ evs ↔ sd = some n)) := by
  have hred : ∀ e ∈ (fitModel cfg clf est X s psx? th nm? inm?).1,
      e ∈ (fitCore cfg clf est X s psx? th nm? inm?).1 := by
    intro e he
    unfold fitModel at he
    split_ifs at he
    all_goals first
      | exact he
      | simp at he
  refine ⟨?_, ?_, ?_, ?_⟩
  · intro e he
    exact (fitCore_event_kinds cfg clf est X s psx? th nm? inm? e
      (hred e he)).1
  · intro sd hsd
    exact (fitCore_event_kinds cfg clf est X s psx? th nm? inm? _
      (hred _ hsd)).2.1 sd rfl
  · intro sd hsd
    exact (fitCore_event_kinds cfg clf est X s psx? th nm? inm? _
      (hred _ hsd)).2.2 sd rfl
  · intro clf' sd evs n hok
    cases sd with
    | none =>
        have hevs : evs = [] := by
          unfold rankPruningInitEvents at hok
          split_ifs at hok
          all_goals first
            | (cases hok; rfl)
            | cases hok
            | (injection hok with h2; exact h2.symm)
        subst hevs
        simp
    | some m =>
        have hevs : evs = [FitEvent.seedGlobalRng m] := by
          unfold rankPruningInitEvents at hok
          split_ifs at hok
          all_goals first
            | (cases hok; rfl)
            | cases hok
            | (injection hok with h2; exact h2.symm)
        subst hevs
        simp [eq_comm]

/-! ## C6: graceful degradation without `sample_weight` support -/

/-- C6: for a wrapped classifier whose `fit` takes no `sample_weight`
parameter, `fit` still completes without error, calling the wrapped
classifier's fit exactly once, without weights, on the pruned training
set. -/
theorem fit_degrades_without_sample_weight {α : Type} (cfg : RPConfig)
    (clf : ClfSpec) (est : Estimators α) (X : List α) (s : List ℕ)
    (psx? : Option Psx) (th : Option (ℕ → ℚ)) (nm? inm? : Option NMat)
    (hv : assert_inputs_are_valid X s psx?)
    (hnm : suppliedTraceLeOne (numClasses s) nm? = false)
    (hinm : suppliedTraceLeOne (numClasses s) inm? = false)
    (hsw : "sample_weight" ∉ clf.fitArgs) :
    fitModel cfg clf est X s psx? th nm? inm? =
      ((fitCore cfg clf est X s psx? th nm? inm?).1,
       .ok (fitCore cfg clf est X s psx? th nm? inm?).2) ∧
    (fitCore cfg clf est X s psx? th nm? inm?).1.filter isClfFitEvent =
      [.clfFit
        (keepUnmasked X (fitCore cfg clf est X s psx? th nm? inm?).2.noise_mask)
        (keepUnmasked s (fitCore cfg clf est X s psx? th nm? inm?).2.noise_mask)
        none] ∧
    (fitCore cfg clf est X s psx? th nm? inm?).2.sample_weight = none := by
  refine ⟨fitModel_ok cfg clf est X s psx? th nm? inm? hv hnm hinm, ?_, ?_⟩ <;>
    rcases nm? with _ | nm <;> rcases inm? with _ | inm <;>
    rcases psx? with _ | p <;>
    simp [fitCore, resolveEstimates, isClfFitEvent, hsw]

/-- C6 witness: a classifier without `sample_weight` on a concrete
dataset. -/
theorem fit_degrades_without_sample_weight_witness :
    (assert_inputs_are_valid X₄ s₄ none ∧
     "sample_weight" ∉ clfUnweighted.fitArgs) ∧
    fitModel cfgSeeded clfUnweighted estConst X₄ s₄ none none none none =
      ((fitCore cfgSeeded clfUnweighted estConst X₄ s₄ none none none none).1,
       .ok (fitCore cfgSeeded clfUnweighted estConst X₄ s₄ none none none
          none).2) :=
  ⟨⟨by decide, by decide⟩,
   (fit_degrades_without_sample_weight cfgSeeded clfUnweighted estConst X₄ s₄
     none none none none (by decide) (by decide) (by decide) (by decide)).1⟩

/-! ## C7: pulearning zeroes the designated class's row and column -/

theorem remove_noise_from_class_row (K : ℕ) (nm : NMat) (c j : ℕ)
    (hj : j ≠ c) : remove_noise_from_class K nm c c j = 0 := by
  simp [remove_noise_from_class, hj, (Ne.symm hj : c ≠ j)]

theorem remove_noise_from_class_col (K : ℕ) (nm : NMat) (c i : ℕ)
    (hi : i ≠ c) : remove_noise_from_class K nm c i c = 0 := by
  simp [remove_noise_from_class, hi]

theorem remove_noise_from_class_diag (K : ℕ) (nm : NMat) (c : ℕ)
    (hc : c < K) : remove_noise_from_class K nm c c c = 1 := by
  first
    | (simp [remove_noise_from_class, hc]; ring)
    | simp [remove_noise_from_class, hc]

theorem remove_noise_from_class_colsum (K : ℕ) (nm : NMat) (c : ℕ)
    (hc : c < K) :
    ∑ i in Finset.range K, remove_noise_from_class K nm c i c = 1 := by
  rw [Finset.sum_eq_single c]
  · exact remove_noise_from_class_diag K nm c hc
  · intro i _ hi
    exact remove_noise_from_class_col K nm c i hi
  · intro hcc
    exact absurd (Finset.mem_range.mpr hc) hcc

theorem fitCore_noise_matrix_pulearning {α : Type} (cfg : RPConfig)
    (clf : ClfSpec) (est : Estimators α) (X : List α) (s : List ℕ)
    (psx? : Option Psx) (th : Option (ℕ → ℚ)) (nm? inm? : Option NMat)
    (c : ℕ) (hc : cfg.pulearning = some c) :
    (fitCore cfg clf est X s psx? th nm? inm?).2.noise_matrix =
      remove_noise_from_class (numClasses s)
        (resolveEstimates cfg clf est X s psx? th nm? inm? (numClasses s)
          (psOf s)).2.1 c := by
  rcases nm? with _ | nm <;> rcases inm? with _ | inm <;>
    rcases psx? with _ | p <;>
    by_cases hw : "sample_weight" ∈ clf.fitArgs <;>
    simp [fitCore, resolveEstimates, applyPulearning, hc, hw]

/-- C7: for every `fit` call with `pulearning` set to a class `c`, the
noise matrix exposed after fit has its row and column for class `c` zero
off the diagonal, with the diagonal entry kept at 1 so the column remains
a distribution (its column sum over the `K` classes is 1). -/
theorem fit_pulearning_zeroes_class {α : Type} (cfg : RPConfig)
    (clf : ClfSpec) (est : Estimators α) (X : List α) (s : List ℕ)
    (psx? : Option Psx) (th : Option (ℕ → ℚ)) (nm? inm? : Option NMat)
    (c : ℕ) (hv : assert_inputs_are_valid X s psx?)
    (hnm : suppliedTraceLeOne (numClasses s) nm? = false)
    (hinm : suppliedTraceLeOne (numClasses s) inm? = false)
    (hc : cfg.pulearning = some c) (hcK : c < numClasses s) :
    fitModel cfg clf est X s psx? th nm? inm? =
      ((fitCore cfg clf est X s psx? th nm? inm?).1,
       .ok (fitCore cfg clf est X s psx? th nm? inm?).2) ∧
    (∀ j, j ≠ c →
      (fitCore cfg clf est X s psx? th nm? inm?).2.noise_matrix c j = 0) ∧
    (∀ i, i ≠ c →
      (fitCore cfg clf est X s psx? th nm? inm?).2.noise_matrix i c = 0) ∧
    (fitCore cfg clf est X s psx? th nm? inm?).2.noise_matrix c c = 1 ∧
    ∑ i in Finset.range (numClasses s),
      (fitCore cfg clf est X s psx? th nm? inm?).2.noise_matrix i c = 1 := by
  rw [fitCore_noise_matrix_pulearning cfg clf est X s psx? th nm? inm? c hc]
  exact ⟨fitModel_ok cfg clf est X s psx? th nm? inm? hv hnm hinm,
    fun j hj => remove_noise_from_class_row _ _ c j hj,
    fun i hi => remove_noise_from_class_col _ _ c i hi,
    remove_noise_from_class_diag _ _ c hcK,
    remove_noise_from_class_colsum _ _ c hcK⟩

/-- C7 witness: `pulearning = 0` on a two-class dataset. -/
theorem fit_pulearning_zeroes_class_witness :
    (assert_inputs_are_valid X₄ s₄ none ∧ cfgPu.pulearning = some 0 ∧
     0 < numClasses s₄) ∧
    fitModel cfgPu clfWeighted estConst X₄ s₄ none none none none =
      ((fitCore cfgPu clfWeighted estConst X₄ s₄ none none none none).1,
       .ok (fitCore cfgPu clfWeighted estConst X₄ s₄ none none none none).2) :=
  ⟨⟨by decide, rfl, by decide⟩,
   (fit_pulearning_zeroes_class cfgPu clfWeighted estConst X₄ s₄ none none
     none none 0 (by decide) (by decide) (by decide) rfl (by decide)).1⟩

/-! ## C5: sample weights of surviving examples -/

theorem zip_map_eq_zipWith {a b c : Type} (f : a × b → c) (l₁ : List a)
    (l₂ : List b) :
    (l₁.zip l₂).map f = List.zipWith (fun x y => f (x, y)) l₁ l₂ := by
  induction l₁ generalizing l₂ with
  | nil => cases l₂ <;> simp
  | cons x xs ih => cases l₂ <;> simp [ih]

theorem zipWith_zipWith_same {a b c d : Type} (f : c → b → d) (g : a → b → c)
    (l₁ : List a) (l₂ : List b) :
    List.zipWith f (List.zipWith g l₁ l₂) l₂ =
      List.zipWith (fun x y => f (g x y) y) l₁ l₂ := by
  induction l₁ generalizing l₂ with
  | nil => cases l₂ <;> simp
  | cons x xs ih => cases l₂ <;> simp [ih]

theorem zipWith_left_eq {a b : Type} (l₁ : List a) (l₂ : List b)
    (h : l₁.length ≤ l₂.length) :
    List.zipWith (fun x _ => x) l₁ l₂ = l₁ := by
  induction l₁ generalizing l₂ with
  | nil => cases l₂ <;> simp
  | cons x xs ih =>
      cases l₂ with
      | nil => simp at h
      | cons y ys =>
          simp only [List.zipWith_cons_cons, List.cons.injEq, true_and]
          exact ih ys (by simpa using h)

theorem assignWeightForClass_eq (nm : NMat) (sp : List ℕ) (w : List ℚ)
    (k : ℕ) :
    assignWeightForClass nm sp w k =
      List.zipWith (fun wi li => if li = k then 1 / nm k k else wi) w sp := by
  unfold assignWeightForClass
  rw [zip_map_eq_zipWith]

theorem foldl_assignWeightForClass (nm : NMat) (sp : List ℕ) (ks : List ℕ) :
    ∀ w : List ℚ, w.length = sp.length →
    ks.foldl (assignWeightForClass nm sp) w =
      List.zipWith (fun wi li => if li ∈ ks then 1 / nm li li else wi) w sp := by
  induction ks with
  | nil =>
      intro w hw
      simp only [List.foldl_nil]
      rw [show (fun (wi : ℚ) (li : ℕ) =>
            if li ∈ ([] : List ℕ) then 1 / nm li li else wi) = fun wi _ => wi
          from by funext wi li; simp]
      exact (zipWith_left_eq w sp (le_of_eq hw)).symm
  | cons k ks ih =>
      intro w hw
      rw [List.foldl_cons,
        ih _ (by rw [assignWeightForClass_eq]; simp [hw]),
        assignWeightForClass_eq, zipWith_zipWith_same]
      congr 1
      funext wi li
      by_cases h1 : li ∈ ks <;> by_cases h2 : li = k <;> simp [h1, h2]

theorem zipWith_range_map (K : ℕ) (nm : NMat) (sp : List ℕ)
    (hsp : ∀ l ∈ sp, l < K) :
    List.zipWith (fun wi li => if li ∈ List.range K then 1 / nm li li else wi)
      (sp.map fun _ => (1 : ℚ)) sp = sp.map fun l => 1 / nm l l := by
  revert hsp
  induction sp with
  | nil => intro _; simp
  | cons l tl ih =>
      intro hsp
      simp only [List.map_cons, List.zipWith_cons_cons]
      rw [if_pos (List.mem_range.mpr (hsp l (by simp)))]
      rw [ih fun x hx => hsp x (by simp [hx])]

theorem sampleWeightOf_eq_map (K : ℕ) (nm : NMat) (sp : List ℕ)
    (hsp : ∀ l ∈ sp, l < K) :
    sampleWeightOf K nm sp = sp.map fun l => 1 / nm l l := by
  unfold sampleWeightOf
  rw [foldl_assignWeightForClass nm sp (List.range K) _ (by simp)]
  exact zipWith_range_map K nm sp hsp

theorem mem_keepUnmasked {β : Type} {xs : List β} {mask : List Bool} {x : β}
    (hx : x ∈ keepUnmasked xs mask) : x ∈ xs := by
  unfold keepUnmasked at hx
  rcases List.mem_map.mp hx with ⟨p, hp, rfl⟩
  have hz := (List.mem_filter.mp hp).1
  rcases p with ⟨a, b⟩
  exact (List.mem_zip hz).1

/-- C5: when the wrapped classifier accepts sample weights, the
sample-weight vector `fit` produces has one entry per surviving example —
it is exactly the survivors' labels mapped through
`k ↦ 1 / noise_matrix[k][k]`, the reciprocal of the class's estimated
self-label-retention probability. -/
theorem fit_sample_weights {α : Type} (cfg : RPConfig) (clf : ClfSpec)
    (est : Estimators α) (X : List α) (s : List ℕ) (psx? : Option Psx)
    (th : Option (ℕ → ℚ)) (nm? inm? : Option NMat)
    (hv : assert_inputs_are_valid X s psx?)
    (hnm : suppliedTraceLeOne (numClasses s) nm? = false)
    (hinm : suppliedTraceLeOne (numClasses s) inm? = false)
    (hsw : "sample_weight" ∈ clf.fitArgs) :
    fitModel cfg clf est X s psx? th nm? inm? =
      ((fitCore cfg clf est X s psx? th nm? inm?).1,
       .ok (fitCore cfg clf est X s psx? th nm? inm?).2) ∧
    (fitCore cfg clf est X s psx? th nm? inm?).2.sample_weight =
      some ((keepUnmasked s
          (fitCore cfg clf est X s psx? th nm? inm?).2.noise_mask).map
        fun k => 1 / (fitCore cfg clf est X s psx? th nm? inm?).2.noise_matrix
          k k) := by
  refine ⟨fitModel_ok cfg clf est X s psx? th nm? inm? hv hnm hinm, ?_⟩
  have hlab : ∀ l ∈ s, l < numClasses s := hv.2.2.2
  rcases nm? with _ | nm <;> rcases inm? with _ | inm <;>
    rcases psx? with _ | p <;>
    simp only [fitCore, resolveEstimates, if_pos hsw] <;>
    rw [sampleWeightOf_eq_map _ _ _
      fun l hl => hlab l (mem_keepUnmasked hl)]

/-- C5 witness: a weighted classifier on a concrete two-class dataset. -/
theorem fit_sample_weights_witness :
    (assert_inputs_are_valid X₄ s₄ none ∧
     "sample_weight" ∈ clfWeighted.fitArgs) ∧
    fitModel cfgSeeded clfWeighted estConst X₄ s₄ none none none none =
      ((fitCore cfgSeeded clfWeighted estConst X₄ s₄ none none none none).1,
       .ok (fitCore cfgSeeded clfWeighted estConst X₄ s₄ none none none
          none).2) :=
  ⟨⟨by decide, by decide⟩,
   (fit_sample_weights cfgSeeded clfWeighted estConst X₄ s₄ none none none
     none (by decide) (by decide) (by decide) (by decide)).1⟩

/-! ## C8: the latent-algebra round trip -/

theorem clip_values_of_mem (K : ℕ) (v : ℕ → ℚ) (y : ℕ) (hy : y < K)
    (hv0 : ∀ y' < K, 0 ≤ v y') (hv1 : ∀ y' < K, v y' ≤ 1)
    (hsum : ∑ y' in Finset.range K, v y' = 1) :
    clip_values K v y = v y := by
  have hc : ∀ y' ∈ Finset.range K,
      (if y' < K then max 0 (min 1 (v y')) else 0) = v y' := by
    intro y' hy'
    have h' := Finset.mem_range.mp hy'
    rw [if_pos h', min_eq_right (hv1 y' h'), max_eq_right (hv0 y' h')]
  have ht : (∑ y' in Finset.range K,
      if y' < K then max 0 (min 1 (v y')) else 0) = 1 := by
    rw [Finset.sum_congr rfl hc]
    exact hsum
  unfold clip_values
  rw [ht]
  simp only [one_ne_zero, if_false, ite_apply, div_one]
  rw [if_pos hy, min_eq_right (hv1 y hy), max_eq_right (hv0 y hy)]

/-- C8, amended: for a valid positive prior `ps` and an inverse noise
matrix `M` with entries in `[0, 1]`, columns summing to 1 and trace
exceeding 1, such that the noise matrix derived by
`compute_noise_matrix_from_inverse` is nonsingular, feeding that derived
matrix to `compute_py_inv_noise_matrix` reproduces `M` exactly on the
`K × K` block (the round-trip law). -/
theorem latent_algebra_round_trip (K : ℕ) (ps : ℕ → ℚ) (M : NMat)
    (hps : ∀ s < K, 0 < ps s)
    (hps1 : ∑ s in Finset.range K, ps s = 1)
    (hnn : ∀ y < K, ∀ s < K, 0 ≤ M y s)
    (hcol : ∀ s < K, ∑ y in Finset.range K, M y s = 1)
    (htr : 1 < npTrace K M)
    (hdet : (finOf K (compute_noise_matrix_from_inverse K ps M)).det ≠ 0) :
    ∀ y < K, ∀ s < K,
      (compute_py_inv_noise_matrix K ps
        (compute_noise_matrix_from_inverse K ps M)).2 y s = M y s := by
  set N : NMat := compute_noise_matrix_from_inverse K ps M with hNdef
  have hNval : ∀ i j, i < K → j < K → N i j =
      M j i * ps i / (∑ s' in Finset.range K, M j s' * ps s') := by
    intro i j hi hj
    rw [hNdef]
    simp [compute_noise_matrix_from_inverse, hi, hj]
  have hpyd_nonneg : ∀ j, j < K →
      0 ≤ ∑ s' in Finset.range K, M j s' * ps s' := by
    intro j hj
    refine Finset.sum_nonneg fun i hi => ?_
    have hiK := Finset.mem_range.mp hi
    exact mul_nonneg (hnn j hj i hiK) (le_of_lt (hps i hiK))
  have hpyd_ne : ∀ j, j < K →
      (∑ s' in Finset.range K, M j s' * ps s') ≠ 0 := by
    intro j hj h0
    apply hdet
    apply Matrix.det_eq_zero_of_column_eq_zero (⟨j, hj⟩ : Fin K)
    intro i
    show N i.1 j = 0
    rw [hNval i.1 j i.2 hj, h0, div_zero]
  have hM1 : ∀ y, y < K → ∀ s, s < K → M y s ≤ 1 := by
    intro y hy s hs
    calc M y s ≤ ∑ y' in Finset.range K, M y' s :=
          Finset.single_le_sum
            (fun i hi => hnn i (Finset.mem_range.mp hi) s hs)
            (Finset.mem_range.mpr hy)
      _ = 1 := hcol s hs
  have hpyd_le_one : ∀ j, j < K →
      (∑ s' in Finset.range K, M j s' * ps s') ≤ 1 := by
    intro j hj
    calc (∑ s' in Finset.range K, M j s' * ps s')
        ≤ ∑ s' in Finset.range K, ps s' := by
          refine Finset.sum_le_sum fun i hi => ?_
          have hiK := Finset.mem_range.mp hi
          calc M j i * ps i ≤ 1 * ps i :=
                mul_le_mul_of_nonneg_right (hM1 j hj i hiK)
                  (le_of_lt (hps i hiK))
            _ = ps i := one_mul _
      _ = 1 := hps1
  have hAv : (finOf K N).mulVec
      (fun j : Fin K => ∑ s' in Finset.range K, M j.1 s' * ps s')
      = fun i : Fin K => ps i.1 := by
    funext i
    show (∑ j : Fin K, finOf K N i j *
        (∑ s' in Finset.range K, M j.1 s' * ps s')) = ps i.1
    calc (∑ j : Fin K, finOf K N i j *
          (∑ s' in Finset.range K, M j.1 s' * ps s'))
        = ∑ j : Fin K, M j.1 i.1 * ps i.1 := by
          refine Finset.sum_congr rfl fun j _ => ?_
          have hNe : finOf K N i j =
              M j.1 i.1 * ps i.1 / (∑ s' in Finset.range K, M j.1 s' * ps s') :=
            hNval i.1 j.1 i.2 j.2
          rw [hNe, div_mul_cancel₀ _ (hpyd_ne j.1 j.2)]
      _ = (∑ j : Fin K, M j.1 i.1) * ps i.1 := by rw [← Finset.sum_mul]
      _ = (∑ j in Finset.range K, M j i.1) * ps i.1 := by
          rw [Fin.sum_univ_eq_sum_range (fun j => M j i.1) K]
      _ = 1 * ps i.1 := by rw [hcol i.1 i.2]
      _ = ps i.1 := one_mul _
  have hBA : (((finOf K N).det)⁻¹ • (finOf K N).adjugate) * finOf K N = 1 := by
    rw [Matrix.smul_mul, Matrix.adjugate_mul, smul_smul,
      inv_mul_cancel₀ hdet, one_smul]
  have hpy : ∀ j, j < K → mulVecK K (npLinalgInv K N) ps j =
      ∑ s' in Finset.range K, M j s' * ps s' := by
    intro j hj
    unfold mulVecK
    rw [if_pos hj]
    rw [← Fin.sum_univ_eq_sum_range (fun i => npLinalgInv K N j i * ps i) K]
    have hterm : ∀ i : Fin K, npLinalgInv K N j i.1 * ps i.1 =
        (((finOf K N).det)⁻¹ • (finOf K N).adjugate) ⟨j, hj⟩ i * ps i.1 := by
      intro i
      congr 1
      simp [npLinalgInv, hj, i.2]
    rw [Finset.sum_congr rfl fun i _ => hterm i]
    have hmv : (∑ i : Fin K,
        (((finOf K N).det)⁻¹ • (finOf K N).adjugate) ⟨j, hj⟩ i * ps i.1) =
        (((finOf K N).det)⁻¹ • (finOf K N).adjugate).mulVec
          (fun i : Fin K => ps i.1) ⟨j, hj⟩ := rfl
    rw [hmv, ← hAv, Matrix.mulVec_mulVec, hBA, Matrix.one_mulVec]
  intro y hy s hs
  have hv0 : ∀ y' < K, 0 ≤ mulVecK K (npLinalgInv K N) ps y' := by
    intro y' hy'
    rw [hpy y' hy']
    exact hpyd_nonneg y' hy'
  have hv1 : ∀ y' < K, mulVecK K (npLinalgInv K N) ps y' ≤ 1 := by
    intro y' hy'
    rw [hpy y' hy']
    exact hpyd_le_one y' hy'
  have hsumv : ∑ y' in Finset.range K, mulVecK K (npLinalgInv K N) ps y' = 1 := by
    rw [Finset.sum_congr rfl fun y' hy' => hpy y' (Finset.mem_range.mp hy')]
    rw [Finset.sum_comm]
    rw [Finset.sum_congr rfl fun s' hs' => show
        (∑ y' in Finset.range K, M y' s' * ps s') = ps s' by
          rw [← Finset.sum_mul, hcol s' (Finset.mem_range.mp hs'), one_mul]]
    exact hps1
  have hcv : clip_values K (mulVecK K (npLinalgInv K N) ps) y =
      ∑ s' in Finset.range K, M y s' * ps s' := by
    rw [clip_values_of_mem K _ y hy hv0 hv1 hsumv, hpy y hy]
  show (compute_py_inv_noise_matrix K ps N).2 y s = M y s
  simp only [compute_py_inv_noise_matrix]
  rw [if_pos ⟨hy, hs⟩, hcv, hNval s y hs hy,
    div_mul_cancel₀ _ (hpyd_ne y hy),
    mul_div_cancel_right₀ _ (ne_of_gt (hps s hs))]

/-- C8 witness: the uniform two-class prior with a symmetric 3/4–1/4
inverse noise matrix satisfies every hypothesis, and the round trip
reproduces it. -/
theorem latent_algebra_round_trip_witness :
    ((∀ s < 2, 0 < psHalf s) ∧
     (∑ s in Finset.range 2, psHalf s = 1) ∧
     (∀ y < 2, ∀ s < 2, 0 ≤ invGood y s) ∧
     (∀ s < 2, ∑ y in Finset.range 2, invGood y s = 1) ∧
     1 < npTrace 2 invGood ∧
     (finOf 2 (compute_noise_matrix_from_inverse 2 psHalf invGood)).det ≠ 0) ∧
    (∀ y < 2, ∀ s < 2,
      (compute_py_inv_noise_matrix 2 psHalf
        (compute_noise_matrix_from_inverse 2 psHalf invGood)).2 y s =
        invGood y s) := by
  have h1 : ∀ s < 2, 0 < psHalf s := by
    intro s hs
    simp only [psHalf]
    rw [if_pos hs]
    norm_num
  have h2 : ∑ s in Finset.range 2, psHalf s = 1 := by
    rw [Finset.sum_range_succ, Finset.sum_range_succ, Finset.sum_range_zero]
    norm_num [psHalf]
  have h3 : ∀ y < 2, ∀ s < 2, 0 ≤ invGood y s := by
    intro y hy s hs
    simp only [invGood]
    rw [if_pos ⟨hy, hs⟩]
    split_ifs <;> norm_num
  have h4 : ∀ s < 2, ∑ y in Finset.range 2, invGood y s = 1 := by
    intro s hs
    interval_cases s <;>
      (rw [Finset.sum_range_succ, Finset.sum_range_succ, Finset.sum_range_zero]
       norm_num [invGood])
  have h5 : 1 < npTrace 2 invGood := by
    unfold npTrace
    rw [Finset.sum_range_succ, Finset.sum_range_succ, Finset.sum_range_zero]
    norm_num [invGood]
  have hden : ∀ j < 2,
      (∑ s' in Finset.range 2, invGood j s' * psHalf s') = 1/2 := by
    intro j hj
    interval_cases j <;>
      (rw [Finset.sum_range_succ, Finset.sum_range_succ, Finset.sum_range_zero]
       norm_num [invGood, psHalf])
  have hN : ∀ i j, i < 2 → j < 2 →
      compute_noise_matrix_from_inverse 2 psHalf invGood i j =
        invGood j i := by
    intro i j hi hj
    simp only [compute_noise_matrix_from_inverse]
    rw [if_pos ⟨hi, hj⟩, hden j hj]
    have hpsv : psHalf i = 1/2 := by
      simp only [psHalf]
      rw [if_pos hi]
    rw [hpsv, mul_div_cancel_right₀ _ (by norm_num : (1/2 : ℚ) ≠ 0)]
  have h6 : (finOf 2 (compute_noise_matrix_from_inverse 2 psHalf
      invGood)).det ≠ 0 := by
    rw [Matrix.det_fin_two]
    simp only [finOf, Matrix.of_apply, Fin.val_zero, Fin.val_one]
    rw [hN 0 0 (by norm_num) (by norm_num), hN 0 1 (by norm_num) (by norm_num),
      hN 1 0 (by norm_num) (by norm_num), hN 1 1 (by norm_num) (by norm_num)]
    norm_num [invGood]
  exact ⟨⟨h1, h2, h3, h4, h5, h6⟩,
    latent_algebra_round_trip 2 psHalf invGood h1 h2 h3 h4 h5 h6⟩

/-- C8 counterexample: for the uniform three-class prior and the
column-stochastic inverse matrix `invSingular` (entries in `[0, 1]`,
columns summing to 1, trace 2 > 1 — satisfying everything the claim
demands of its input), the derived noise matrix is singular and the round
trip returns 0 where the original entry is 1/2: the claim as stated
fails. -/
theorem latent_algebra_round_trip_cex :
    (∀ s < 3, 0 < psThird s) ∧
    (∑ s in Finset.range 3, psThird s = 1) ∧
    (∀ y < 3, ∀ s < 3, 0 ≤ invSingular y s) ∧
    (∀ s < 3, ∑ y in Finset.range 3, invSingular y s = 1) ∧
    1 < npTrace 3 invSingular ∧
    (compute_py_inv_noise_matrix 3 psThird
      (compute_noise_matrix_from_inverse 3 psThird invSingular)).2 0 0 = 0 ∧
    invSingular 0 0 = 1/2 := by
  have h1 : ∀ s < 3, 0 < psThird s := by
    intro s hs
    simp only [psThird]
    rw [if_pos hs]
    norm_num
  have h2 : ∑ s in Finset.range 3, psThird s = 1 := by
    rw [Finset.sum_range_succ, Finset.sum_range_succ, Finset.sum_range_succ,
      Finset.sum_range_zero]
    norm_num [psThird]
  have h3 : ∀ y < 3, ∀ s < 3, 0 ≤ invSingular y s := by
    intro y hy s hs
    simp only [invSingular]
    rw [if_pos ⟨hy, hs⟩]
    split_ifs <;> norm_num
  have h4 : ∀ s < 3, ∑ y in Finset.range 3, invSingular y s = 1 := by
    intro s hs
    interval_cases s <;>
      (rw [Finset.sum_range_succ, Finset.sum_range_succ, Finset.sum_range_succ,
        Finset.sum_range_zero]
       norm_num [invSingular])
  have h5 : 1 < npTrace 3 invSingular := by
    unfold npTrace
    rw [Finset.sum_range_succ, Finset.sum_range_succ, Finset.sum_range_succ,
      Finset.sum_range_zero]
    norm_num [invSingular]
  have hden : ∀ j < 3,
      (∑ s' in Finset.range 3, invSingular j s' * psThird s') = 1/3 := by
    intro j hj
    interval_cases j <;>
      (rw [Finset.sum_range_succ, Finset.sum_range_succ, Finset.sum_range_succ,
        Finset.sum_range_zero]
       norm_num [invSingular, psThird])
  have hN : ∀ i j, i < 3 → j < 3 →
      compute_noise_matrix_from_inverse 3 psThird invSingular i j =
        invSingular j i := by
    intro i j hi hj
    simp only [compute_noise_matrix_from_inverse]
    rw [if_pos ⟨hi, hj⟩, hden j hj]
    have hpsv : psThird i = 1/3 := by
      simp only [psThird]
      rw [if_pos hi]
    rw [hpsv, mul_div_cancel_right₀ _ (by norm_num : (1/3 : ℚ) ≠ 0)]
  have hdet0 : (finOf 3 (compute_noise_matrix_from_inverse 3 psThird
      invSingular)).det = 0 := by
    rw [Matrix.det_fin_three]
    simp only [finOf, Matrix.of_apply, Fin.val_zero, Fin.val_one, Fin.val_two]
    rw [hN 0 0 (by norm_num) (by norm_num), hN 0 1 (by norm_num) (by norm_num),
      hN 0 2 (by norm_num) (by norm_num), hN 1 0 (by norm_num) (by norm_num),
      hN 1 1 (by norm_num) (by norm_num), hN 1 2 (by norm_num) (by norm_num),
      hN 2 0 (by norm_num) (by norm_num), hN 2 1 (by norm_num) (by norm_num),
      hN 2 2 (by norm_num) (by norm_num)]
    norm_num [invSingular]
  have hinv0 : ∀ i j, npLinalgInv 3
      (compute_noise_matrix_from_inverse 3 psThird invSingular) i j = 0 := by
    intro i j
    unfold npLinalgInv
    split_ifs with h
    · rw [hdet0]
      simp
    · rfl
  have hv0 : ∀ y', mulVecK 3 (npLinalgInv 3
      (compute_noise_matrix_from_inverse 3 psThird invSingular)) psThird y'
      = 0 := by
    intro y'
    unfold mulVecK
    split_ifs with h
    · simp [hinv0]
    · rfl
  have hclip0 : clip_values 3 (mulVecK 3 (npLinalgInv 3
      (compute_noise_matrix_from_inverse 3 psThird invSingular)) psThird) 0
      = 0 := by
    unfold clip_values
    simp only [hv0]
    norm_num
  have h6 : (compute_py_inv_noise_matrix 3 psThird
      (compute_noise_matrix_from_inverse 3 psThird invSingular)).2 0 0
      = 0 := by
    simp only [compute_py_inv_noise_matrix]
    rw [if_pos (by norm_num : (0:ℕ) < 3 ∧ (0:ℕ) < 3), hclip0]
    simp
  exact ⟨h1, h2, h3, h4, h5, h6, by norm_num [invSingular]⟩

end Cleanlab
